import Mathlib

/-!
Verification of the state-reconciliation and real-time log/control subsystem
of the nexus-crate-flow container manager.

The definitions below are a shallow embedding of the JavaScript source:
  - backend/services/dockerService.js (syncContainers, restartContainer,
    monitorContainerHealth, cleanupOrphanedContainers)
  - backend/services/logService.js (writeLog, readLogs, clearLogs,
    cleanupOldLogs)
  - backend/config/docker.js (calculateCpuPercent)
  - backend/services/websocketService.js (setupConnection message dispatch,
    broadcastLogEntry, broadcastContainerStatus)

Conventions of the embedding:
  - JavaScript strings are Lean String values except inside the log-file
    layer, where files are List Char so that line splitting can be reasoned
    about; machine numbers that feed divisions are rationals.
  - Nullable values are Option; JavaScript truthiness of a nullable string
    (null or empty both falsy) is the predicate optStrFalsy.
  - Database rows live in plain lists; an UPDATE keyed by id maps over the
    list; an INSERT appends.  Exceptions that propagate to the caller are
    returned as an Option String error component while the mutations
    performed before (and inside catch blocks) persist, exactly as the
    database writes persist across a JavaScript throw.
-/

set_option maxHeartbeats 1000000

namespace NexusCrateFlow

/-- Truthiness of a nullable string in JavaScript: null and the empty string
are both falsy. -/
def optStrFalsy : Option String → Bool
  | none => true
  | some s => s = ""

/-! ### Container-engine client: CPU percent (docker.js, calculateCpuPercent) -/

/-- One cpu_stats (or precpu_stats) block of an engine stats sample.  The JS
reads total_usage, system_cpu_usage and online_cpus; a missing online_cpus is
modelled as 0 (both are falsy in the guard that substitutes 1). -/
structure CpuStatsBlock where
  total_usage : ℚ
  system_cpu_usage : ℚ
  online_cpus : ℕ
deriving DecidableEq, Repr

/-- A stats sample as consumed by calculateCpuPercent. -/
structure StatsSample where
  cpu_stats : CpuStatsBlock
  precpu_stats : CpuStatsBlock
deriving DecidableEq, Repr

/-- Difference of the container cpu counters between the two sample points. -/
def cpuDelta (s : StatsSample) : ℚ :=
  s.cpu_stats.total_usage - s.precpu_stats.total_usage

/-- Difference of the host cpu counters between the two sample points. -/
def systemDelta (s : StatsSample) : ℚ :=
  s.cpu_stats.system_cpu_usage - s.precpu_stats.system_cpu_usage

/-- Engine cpu count with the falsy-to-1 substitution of the source
(stats.cpu_stats.online_cpus or-else 1). -/
def onlineCpuCount (s : StatsSample) : ℕ :=
  if s.cpu_stats.online_cpus = 0 then 1 else s.cpu_stats.online_cpus

/-- Embedding of DockerManager.calculateCpuPercent. -/
def calculateCpuPercent (s : StatsSample) : ℚ :=
  if 0 < systemDelta s ∧ 0 < cpuDelta s then
    cpuDelta s / systemDelta s * (onlineCpuCount s : ℚ) * 100
  else 0

/-! ### Log retention cleanup (logService.js, cleanupOldLogs) -/

/-- One on-disk file of a container log directory: its name and its
modification time (an integer timestamp). -/
structure LogDirFile where
  name : List Char
  mtime : ℤ
deriving DecidableEq, Repr

/-- One per-container log directory. -/
structure ContainerLogDir where
  dirName : List Char
  files : List LogDirFile
deriving DecidableEq, Repr

/-- JavaScript String.prototype.includes on character lists. -/
def strIncludes (sub : List Char) : List Char → Bool
  | [] => sub.isEmpty
  | c :: cs => sub.isPrefixOf (c :: cs) || strIncludes sub cs

/-- The rotation marker cleanupOldLogs looks for inside a file name. -/
def rotatedMark : List Char := ".log.".toList

/-- One directory pass of cleanupOldLogs: a file is unlinked exactly when its
mtime precedes the cutoff and its name contains the rotation marker; the pass
returns the surviving files and the number of deletions. -/
def cleanupDirFiles (cutoff : ℤ) : List LogDirFile → List LogDirFile × ℕ
  | [] => ([], 0)
  | f :: fs =>
    let rest := cleanupDirFiles cutoff fs
    if f.mtime < cutoff ∧ strIncludes rotatedMark f.name then
      (rest.1, rest.2 + 1)
    else
      (f :: rest.1, rest.2)

/-- Embedding of LogService.cleanupOldLogs over the directory listing: a
directory whose name does not start with the container- marker is skipped
entirely; the result is the surviving tree and the cleaned count. -/
def cleanupOldLogs (cutoff : ℤ) : List ContainerLogDir → List ContainerLogDir × ℕ
  | [] => ([], 0)
  | d :: ds =>
    let rest := cleanupOldLogs cutoff ds
    if "container-".toList.isPrefixOf d.dirName then
      let pass := cleanupDirFiles cutoff d.files
      (⟨d.dirName, pass.1⟩ :: rest.1, pass.2 + rest.2)
    else
      (d :: rest.1, rest.2)

/-- The four active (unrotated) per-category file names. -/
def activeLogFileNames : List (List Char) :=
  ["application.log".toList, "startup.log".toList, "error.log".toList, "info.log".toList]

theorem cleanupDirFiles_keeps (cutoff : ℤ) (fs : List LogDirFile) (f : LogDirFile)
    (hf : f ∈ fs) (hname : strIncludes rotatedMark f.name = false) :
    f ∈ (cleanupDirFiles cutoff fs).1 := by
  induction fs with
  | nil => cases hf
  | cons g gs ih =>
    rcases List.mem_cons.mp hf with rfl | hf
    · simp only [cleanupDirFiles]
      rw [if_neg]
      · exact List.mem_cons_self _ _
      · rintro ⟨-, hmark⟩
        rw [hname] at hmark
        exact Bool.false_ne_true hmark
    · simp only [cleanupDirFiles]
      split
      · exact ih hf
      · exact List.mem_cons_of_mem _ (ih hf)

/-- C10: retention cleanup never deletes an active log file.  Every directory
survives cleanupOldLogs with its name intact, every file whose name does not
contain the rotation marker ".log." survives with it (modification time
included), and in particular each of the four active category file names is
free of the rotation marker, so those files are untouched for every cutoff. -/
theorem cleanupOldLogs_preserves_active (cutoff : ℤ) (dirs : List ContainerLogDir)
    (d : ContainerLogDir) (hd : d ∈ dirs) :
    (∃ d' ∈ (cleanupOldLogs cutoff dirs).1, d'.dirName = d.dirName ∧
      ∀ f ∈ d.files, strIncludes rotatedMark f.name = false → f ∈ d'.files) ∧
    (∀ nm ∈ activeLogFileNames, strIncludes rotatedMark nm = false) := by
  constructor
  · induction dirs with
    | nil => cases hd
    | cons g gs ih =>
      rcases List.mem_cons.mp hd with rfl | hd
      · simp only [cleanupOldLogs]
        split
        · exact ⟨⟨d.dirName, (cleanupDirFiles cutoff d.files).1⟩,
            List.mem_cons_self _ _, rfl,
            fun f hf hmark => cleanupDirFiles_keeps cutoff d.files f hf hmark⟩
        · exact ⟨d, List.mem_cons_self _ _, rfl, fun f hf _ => hf⟩
      · obtain ⟨d', hd', hnm, hkeep⟩ := ih hd
        refine ⟨d', ?_, hnm, hkeep⟩
        simp only [cleanupOldLogs]
        split
        · exact List.mem_cons_of_mem _ hd'
        · exact List.mem_cons_of_mem _ hd'
  · decide

/-- Witness for C10 at a concrete directory tree: a container directory with
an aged rotated file and the active application.log also aged; active file
survives. -/
theorem cleanupOldLogs_preserves_active_witness :
    (∃ d' ∈ (cleanupOldLogs 100
        [⟨"container-c1".toList,
          [⟨"application.log".toList, 5⟩, ⟨"application.log.2023".toList, 5⟩]⟩]).1,
      d'.dirName = "container-c1".toList ∧
      ∀ f ∈ [LogDirFile.mk "application.log".toList 5,
             LogDirFile.mk "application.log.2023".toList 5],
        strIncludes rotatedMark f.name = false → f ∈ d'.files) ∧
    (∀ nm ∈ activeLogFileNames, strIncludes rotatedMark nm = false) :=
  cleanupOldLogs_preserves_active 100
    [⟨"container-c1".toList,
      [⟨"application.log".toList, 5⟩, ⟨"application.log.2023".toList, 5⟩]⟩]
    ⟨"container-c1".toList,
      [⟨"application.log".toList, 5⟩, ⟨"application.log.2023".toList, 5⟩]⟩
    (List.mem_singleton.mpr rfl)

/-- C9: the computed CPU percent equals cpuDelta divided by systemDelta times
online cpus times 100 whenever the guard of the source passes (positive
system delta and positive cpu delta), it is exactly 0 whenever systemDelta is
zero or negative, and it is never negative.  Over the rational embedding no
NaN can arise. -/
theorem calculateCpuPercent_spec (s : StatsSample) :
    (0 < systemDelta s → 0 < cpuDelta s →
      calculateCpuPercent s = cpuDelta s / systemDelta s * (onlineCpuCount s : ℚ) * 100) ∧
    (systemDelta s ≤ 0 → calculateCpuPercent s = 0) ∧
    0 ≤ calculateCpuPercent s := by
  refine ⟨fun hs hc => ?_, fun hs => ?_, ?_⟩
  · rw [calculateCpuPercent, if_pos ⟨hs, hc⟩]
  · rw [calculateCpuPercent, if_neg]
    rintro ⟨hpos, -⟩
    exact absurd hs (not_le.mpr hpos)
  · rw [calculateCpuPercent]
    split
    · next h =>
      have hdiv : 0 ≤ cpuDelta s / systemDelta s := le_of_lt (div_pos h.2 h.1)
      positivity
    · exact le_refl 0

/-- Witness for C9 at a concrete sample: deltas 20 and 100 over 4 cpus give
exactly 80 percent. -/
theorem calculateCpuPercent_spec_witness :
    calculateCpuPercent ⟨⟨30, 100, 4⟩, ⟨10, 0, 2⟩⟩ =
      cpuDelta ⟨⟨30, 100, 4⟩, ⟨10, 0, 2⟩⟩ / systemDelta ⟨⟨30, 100, 4⟩, ⟨10, 0, 2⟩⟩ *
        (onlineCpuCount ⟨⟨30, 100, 4⟩, ⟨10, 0, 2⟩⟩ : ℚ) * 100 :=
  (calculateCpuPercent_spec ⟨⟨30, 100, 4⟩, ⟨10, 0, 2⟩⟩).1 (by norm_num [systemDelta])
    (by norm_num [cpuDelta])

/-! ### Container registry model (models/Container.js) -/

/-- A persisted container row with the fields the reconciler reads and
writes. -/
structure DbRecord where
  id : String
  name : String
  docker_id : Option String
  status : String
  startup_script : Option String
deriving DecidableEq, Repr

/-- A row of the container_logs table as written by Container.addLog. -/
structure LogRow where
  container_id : String
  content : String
  log_type : String
deriving DecidableEq, Repr

/-- The shared mutable state the reconciler tasks touch: container rows and
log rows. -/
structure Registry where
  containers : List DbRecord
  logs : List LogRow
deriving DecidableEq, Repr

/-- Embedding of Container.findById over the row list. -/
def findById (db : List DbRecord) (cid : String) : Option DbRecord :=
  db.find? (fun c => c.id = cid)

/-- Embedding of Container.updateStatus: an UPDATE keyed by id. -/
def updateStatus (db : List DbRecord) (cid status : String) : List DbRecord :=
  db.map (fun c => if c.id = cid then { c with status := status } else c)

/-- Embedding of Container.addLog: an INSERT into container_logs. -/
def addLog (logs : List LogRow) (cid content ltype : String) : List LogRow :=
  logs ++ [⟨cid, content, ltype⟩]

/-- The normalized inspect result the monitor consumes (status string and the
running flag). -/
structure DockerInfo where
  status : String
  running : Bool
deriving DecidableEq, Repr

/-- Result of DockerService.restartContainer: the registry after the call
(mutations before a throw and in the catch block persist), the re-raised
error if any, and the startup script whose execution was scheduled. -/
structure RestartOutcome where
  state : Registry
  raised : Option String
  scheduledStartup : Option String
deriving DecidableEq, Repr

/-- Embedding of DockerService.restartContainer.  The engine restart call is
the function engineRestart keyed by the docker id: none means success, some
msg a failure with that message.  On failure the catch block re-fetches the
record, writes the restart-failed error log and re-raises; the status write
happens only after a successful engine call. -/
def restartContainer (engineRestart : String → Option String) (st : Registry)
    (cid : String) : RestartOutcome :=
  match findById st.containers cid with
  | none => ⟨st, some "Container not found", none⟩
  | some c =>
    if optStrFalsy c.docker_id then
      ⟨⟨st.containers,
        addLog st.logs cid "Container restart failed: Container has no Docker ID" "error"⟩,
       some "Container has no Docker ID", none⟩
    else
      let logs1 := addLog st.logs cid "Container restart initiated" "info"
      match engineRestart (c.docker_id.getD "") with
      | some msg =>
        ⟨⟨st.containers, addLog logs1 cid ("Container restart failed: " ++ msg) "error"⟩,
         some msg, none⟩
      | none =>
        ⟨⟨updateStatus st.containers cid "running",
          addLog logs1 cid "Container restarted successfully" "info"⟩,
         none,
         if optStrFalsy c.startup_script then none else c.startup_script⟩

/-- C4: the restart operation is atomic on failure.  When the record exists,
has a docker id, and the engine restart call fails, the container rows are
left exactly as they were (in particular no status changes), the log gains
the initiated entry followed by an error entry recording the failure, and the
failure is re-raised to the caller. -/
theorem restartContainer_atomic_on_failure (engineRestart : String → Option String)
    (st : Registry) (cid : String) (c : DbRecord) (msg : String)
    (hc : findById st.containers cid = some c)
    (hdid : optStrFalsy c.docker_id = false)
    (hfail : engineRestart (c.docker_id.getD "") = some msg) :
    (restartContainer engineRestart st cid).state.containers = st.containers ∧
    (restartContainer engineRestart st cid).state.logs =
      st.logs ++ [⟨cid, "Container restart initiated", "info"⟩,
                  ⟨cid, "Container restart failed: " ++ msg, "error"⟩] ∧
    (restartContainer engineRestart st cid).raised = some msg := by
  simp [restartContainer, hc, hdid, hfail, addLog]

/-- Witness for C4 at a concrete registry: one stopped container, an engine
restart that fails with message boom. -/
theorem restartContainer_atomic_on_failure_witness :
    (restartContainer (fun _ => some "boom")
      ⟨[⟨"c1", "web", some "d1", "stopped", none⟩], []⟩ "c1").state.containers =
        [⟨"c1", "web", some "d1", "stopped", none⟩] ∧
    (restartContainer (fun _ => some "boom")
      ⟨[⟨"c1", "web", some "d1", "stopped", none⟩], []⟩ "c1").state.logs =
      [] ++ [⟨"c1", "Container restart initiated", "info"⟩,
             ⟨"c1", "Container restart failed: " ++ "boom", "error"⟩] ∧
    (restartContainer (fun _ => some "boom")
      ⟨[⟨"c1", "web", some "d1", "stopped", none⟩], []⟩ "c1").raised = some "boom" :=
  restartContainer_atomic_on_failure (fun _ => some "boom")
    ⟨[⟨"c1", "web", some "d1", "stopped", none⟩], []⟩ "c1"
    ⟨"c1", "web", some "d1", "stopped", none⟩ "boom" (by decide) (by decide) rfl

/-! ### Health monitor (dockerService.js, monitorContainerHealth) -/

/-- The container_settings row fields the monitor reads. -/
structure ContainerSettings where
  auto_restart : Bool
deriving DecidableEq, Repr

/-- One health check value pushed per inspected container. -/
structure HealthCheck where
  container_id : String
  name : String
  expected_status : String
  actual_status : String
  healthy : Bool
  errorMsg : Option String
deriving DecidableEq, Repr

/-- The engine as one monitor tick sees it: inspect by docker id (an error
carries the message) and the restart outcome by docker id. -/
structure MonitorEnv where
  inspect : String → Except String DockerInfo
  engineRestart : String → Option String

/-- One iteration of the monitor loop for one snapshot record.  A record
without a docker id is skipped.  An inspect failure yields an unknown,
unhealthy check.  If the engine reports not running while the record says
running, the status is set to stopped with a warning log and, only when that
container has settings with auto-restart enabled, the restart operation is
invoked (a raised restart failure is caught and logged, never propagated);
the health check is pushed afterwards and so reads the already-updated
in-memory status.  Returns the new registry, the pushed check, and the id the
restart operation was invoked on, if any. -/
def monitorStep (env : MonitorEnv) (settings : String → Option ContainerSettings)
    (st : Registry) (c : DbRecord) : Registry × Option HealthCheck × Option String :=
  match c.docker_id with
  | none => (st, none, none)
  | some d =>
    if d = "" then (st, none, none)
    else
      match env.inspect d with
      | Except.error msg => (st, some ⟨c.id, c.name, c.status, "unknown", false, some msg⟩, none)
      | Except.ok info =>
        if info.running = false ∧ c.status = "running" then
          let st1 : Registry :=
            ⟨updateStatus st.containers c.id "stopped",
             addLog st.logs c.id "Container health check: status updated to stopped" "warning"⟩
          let next : Registry × Option String :=
            match settings c.id with
            | some s =>
              if s.auto_restart then
                let st2 : Registry :=
                  ⟨st1.containers,
                   addLog st1.logs c.id "Auto-restart enabled, attempting to restart container" "info"⟩
                let o := restartContainer env.engineRestart st2 c.id
                match o.raised with
                | some m =>
                  (⟨o.state.containers, addLog o.state.logs c.id ("Auto-restart failed: " ++ m) "error"⟩,
                   some c.id)
                | none => (o.state, some c.id)
              else (st1, none)
            | none => (st1, none)
          (next.1,
           some ⟨c.id, c.name, "stopped", info.status,
                 info.running == decide (("stopped" : String) = "running"), none⟩,
           next.2)
        else
          (st, some ⟨c.id, c.name, c.status, info.status,
                     info.running == decide (c.status = "running"), none⟩, none)

/-- The monitor for-loop over the snapshot of running records, threading the
registry. -/
def monitorLoop (env : MonitorEnv) (settings : String → Option ContainerSettings) :
    Registry → List DbRecord → Registry × List HealthCheck × List String
  | st, [] => (st, [], [])
  | st, c :: cs =>
    let o := monitorStep env settings st c
    let rest := monitorLoop env settings o.1 cs
    (rest.1, o.2.1.toList ++ rest.2.1, o.2.2.toList ++ rest.2.2)

/-- Embedding of DockerService.monitorContainerHealth: one tick over the
records the running-status query returns. -/
def monitorContainerHealth (env : MonitorEnv) (settings : String → Option ContainerSettings)
    (st : Registry) : Registry × List HealthCheck × List String :=
  monitorLoop env settings st (st.containers.filter (fun c => c.status = "running"))

/-- Any number of monitor ticks, each against its own engine view; the
settings table is held fixed.  Collects every id the restart operation was
invoked on. -/
def monitorRun (settings : String → Option ContainerSettings) :
    List MonitorEnv → Registry → Registry × List String
  | [], st => (st, [])
  | env :: envs, st =>
    let o := monitorContainerHealth env settings st
    let rest := monitorRun settings envs o.1
    (rest.1, o.2.2 ++ rest.2)

/-- Absence of auto-restart for a container: no settings row, or a row with
the flag off. -/
def autoRestartOff : Option ContainerSettings → Prop
  | none => True
  | some s => s.auto_restart = false

theorem monitorStep_restart_enabled (env : MonitorEnv)
    (settings : String → Option ContainerSettings) (st : Registry) (c : DbRecord)
    (cid : String) (h : (monitorStep env settings st c).2.2 = some cid) :
    cid = c.id ∧ ∃ s, settings c.id = some s ∧ s.auto_restart = true := by
  unfold monitorStep at h
  split at h
  · cases h
  · split at h
    · cases h
    · split at h
      · cases h
      · split at h
        · simp only at h
          revert h
          split
          · next s hs =>
            split
            · next hauto =>
              split
              · intro h
                cases h
                exact ⟨rfl, s, hs, hauto⟩
              · intro h
                cases h
                exact ⟨rfl, s, hs, hauto⟩
            · intro h
              cases h
          · intro h
            cases h
        · cases h

theorem monitorLoop_restart_enabled (env : MonitorEnv)
    (settings : String → Option ContainerSettings) (st : Registry) (cs : List DbRecord)
    (cid : String) (h : cid ∈ (monitorLoop env settings st cs).2.2) :
    ∃ s, settings cid = some s ∧ s.auto_restart = true := by
  induction cs generalizing st with
  | nil => cases h
  | cons c cs ih =>
    simp only [monitorLoop, List.mem_append] at h
    rcases h with h | h
    · rcases ho : (monitorStep env settings st c).2.2 with - | x
      · rw [ho] at h
        cases h
      · rw [ho] at h
        rcases List.mem_singleton.mp h with rfl
        obtain ⟨rfl, s, hs, hauto⟩ := monitorStep_restart_enabled env settings st c cid ho
        exact ⟨s, hs, hauto⟩
    · exact ih _ h

/-- C3: the health monitor never invokes the restart operation on a container
whose settings are absent or have auto-restart disabled, across any number of
monitor ticks and any engine behaviour. -/
theorem monitor_never_restarts_disabled (settings : String → Option ContainerSettings)
    (envs : List MonitorEnv) (st : Registry) (cid : String)
    (hoff : autoRestartOff (settings cid)) :
    cid ∉ (monitorRun settings envs st).2 := by
  induction envs generalizing st with
  | nil => simp [monitorRun]
  | cons env envs ih =>
    simp only [monitorRun, List.mem_append]
    rintro (h | h)
    · obtain ⟨s, hs, hauto⟩ := monitorLoop_restart_enabled env settings st _ cid h
      rw [hs] at hoff
      rw [hoff] at hauto
      exact Bool.false_ne_true hauto
    · exact ih _ h

/-- Witness for C3 at a concrete run: two ticks, a running record whose
engine object is down, settings present but with auto-restart off; the
restart operation is never invoked on it. -/
theorem monitor_never_restarts_disabled_witness :
    "c1" ∉ (monitorRun (fun cid => if cid = "c1" then some ⟨false⟩ else none)
      [⟨fun _ => Except.ok ⟨"exited", false⟩, fun _ => none⟩,
       ⟨fun _ => Except.ok ⟨"exited", false⟩, fun _ => none⟩]
      ⟨[⟨"c1", "web", some "d1", "running", none⟩], []⟩).2 :=
  monitor_never_restarts_disabled (fun cid => if cid = "c1" then some ⟨false⟩ else none)
    [⟨fun _ => Except.ok ⟨"exited", false⟩, fun _ => none⟩,
     ⟨fun _ => Except.ok ⟨"exited", false⟩, fun _ => none⟩]
    ⟨[⟨"c1", "web", some "d1", "running", none⟩], []⟩ "c1"
    (by simp [autoRestartOff])

/-! ### Sync (dockerService.js, syncContainers) -/

/-- An engine container as normalized by DockerManager.listContainers. -/
structure DockerContainer where
  dockerId : String
  name : String
  image : String
  status : String
  labels : List (String × String)
deriving DecidableEq, Repr

/-- Label lookup on the normalized labels object. -/
def lookupLabel (labels : List (String × String)) (key : String) : Option String :=
  (labels.find? (fun p => p.1 = key)).map (fun p => p.2)

/-- The match predicate of both sync loops: the engine object and the record
agree on docker id (a null record id matches nothing) or on name. -/
def dockerMatchesDb (dc : DockerContainer) (r : DbRecord) : Bool :=
  r.docker_id = some dc.dockerId ∨ dc.name = r.name

/-- The find call of the sync loops: the first engine object in list order
satisfying the match predicate. -/
def findEngineMatch (dockers : List DockerContainer) (r : DbRecord) : Option DockerContainer :=
  dockers.find? (fun dc => dockerMatchesDb dc r)

/-- Result of processing one registry record in the first sync loop. -/
structure SyncOneResult where
  record : DbRecord
  updates : ℕ
  matched : Bool
  warn : Option LogRow
deriving DecidableEq, Repr

/-- One iteration of the first sync loop: with a match, update the status if
it differs and backfill a missing docker id when the engine object carries
one; without a match, mark the record stopped (once) with a warning log. -/
def syncOne (dockers : List DockerContainer) (r : DbRecord) : SyncOneResult :=
  match findEngineMatch dockers r with
  | some dc =>
    let s1 := if r.status ≠ dc.status then ({ r with status := dc.status }, 1) else (r, 0)
    let s2 :=
      if optStrFalsy s1.1.docker_id ∧ dc.dockerId ≠ "" then
        ({ s1.1 with docker_id := some dc.dockerId }, 1)
      else (s1.1, 0)
    ⟨s2.1, s1.2 + s2.2, true, none⟩
  | none =>
    if r.status ≠ "stopped" then
      ⟨{ r with status := "stopped" }, 1, false,
       some ⟨r.id, "Container not found in Docker, marked as stopped", "warning"⟩⟩
    else ⟨r, 0, false, none⟩

/-- The first sync loop over the registry snapshot. -/
def syncLoop1 (dockers : List DockerContainer) :
    List DbRecord → List DbRecord × List LogRow × ℕ × ℕ
  | [] => ([], [], 0, 0)
  | r :: rs =>
    let o := syncOne dockers r
    let rest := syncLoop1 dockers rs
    (o.record :: rest.1, o.warn.toList ++ rest.2.1, o.updates + rest.2.2.1,
     (if o.matched then 1 else 0) + rest.2.2.2)

/-- The record Container.create inserts for an auto-import, after the
follow-up updateDockerId and updateStatus calls. -/
def importRecord (newid : String) (dc : DockerContainer) : DbRecord :=
  let created : DbRecord := ⟨newid, dc.name, none, "created", none⟩
  let withId := { created with docker_id := some dc.dockerId }
  { withId with status := dc.status }

/-- The second sync loop: every labelled engine container with no match in
the (already updated) registry snapshot is auto-imported.  The counter k
numbers the creations so that the id supply can hand out fresh ids. -/
def syncLoop2 (db1 : List DbRecord) (newId : ℕ → String) :
    List DockerContainer → ℕ → List DbRecord × List LogRow × ℕ
  | [], _ => ([], [], 0)
  | dc :: rest, k =>
    if (db1.find? (fun r => dockerMatchesDb dc r)).isNone ∧
        lookupLabel dc.labels "nexus-crate-flow" = some "true" then
      let newRec := importRecord (newId k) dc
      let restOut := syncLoop2 db1 newId rest (k + 1)
      (newRec :: restOut.1,
       ⟨newRec.id, "Container auto-imported from Docker", "info"⟩ :: restOut.2.1,
       restOut.2.2 + 1)
    else syncLoop2 db1 newId rest k

/-- The observable result of one sync tick. -/
structure SyncResult where
  db : List DbRecord
  logs : List LogRow
  synced : ℕ
  updated : ℕ
  created : ℕ
deriving DecidableEq, Repr

/-- Embedding of DockerService.syncContainers: loop one updates the snapshot
records against the engine list, loop two auto-imports labelled engine
containers absent from the updated snapshot. -/
def syncContainers (newId : ℕ → String) (dockers : List DockerContainer)
    (db : List DbRecord) : SyncResult :=
  let p1 := syncLoop1 dockers db
  let p2 := syncLoop2 p1.1 newId dockers 0
  ⟨p1.1 ++ p2.1, p1.2.1 ++ p2.2.1, p1.2.2.2, p1.2.2.1, p2.2.2⟩

/-- C2 counterexample: the match is a single find over a disjunction, so list
order decides ties.  With engine list A then B, record r named like A but
whose engineRef equals the id of B, the find returns A (the name match), not
B (the engineRef match): the engineRef match does not always win.  The sync
consequence is visible: the record takes the status of A (exited) although
the engineRef-matching object B reports running. -/
theorem findEngineMatch_engineRef_loses :
    findEngineMatch
        [⟨"ida", "n", "img", "exited", []⟩, ⟨"idb", "m", "img", "running", []⟩]
        ⟨"c1", "n", some "idb", "running", none⟩ =
      some ⟨"ida", "n", "img", "exited", []⟩ ∧
    (DbRecord.mk "c1" "n" (some "idb") "running" none).docker_id =
      some (DockerContainer.mk "idb" "m" "img" "running" []).dockerId ∧
    (DockerContainer.mk "ida" "n" "img" "exited" []) ≠
      (DockerContainer.mk "idb" "m" "img" "running" []) ∧
    ((syncContainers (fun _ => "f0")
        [⟨"ida", "n", "img", "exited", []⟩, ⟨"idb", "m", "img", "running", []⟩]
        [⟨"c1", "n", some "idb", "running", none⟩]).db.map (fun r => r.status)) =
      ["exited"] := by
  refine ⟨rfl, rfl, by decide, rfl⟩

/-- C2 amended: the record is matched to the first engine object in list
order satisfying the engineRef-or-name disjunction; hence an engineRef match
wins over a name match exactly when no engine object that matches the record
(by id or by name) precedes the engineRef-matching object in the engine
list. -/
theorem findEngineMatch_engineRef_wins_when_first (pre post : List DockerContainer)
    (dc : DockerContainer) (r : DbRecord)
    (hid : r.docker_id = some dc.dockerId)
    (hpre : ∀ dcp ∈ pre, r.docker_id ≠ some dcp.dockerId ∧ dcp.name ≠ r.name) :
    findEngineMatch (pre ++ dc :: post) r = some dc := by
  induction pre with
  | nil =>
    simp only [List.nil_append, findEngineMatch]
    rw [List.find?_cons_of_pos]
    simp [dockerMatchesDb, hid]
  | cons p ps ih =>
    have hp := hpre p (List.mem_cons_self _ _)
    simp only [List.cons_append, findEngineMatch]
    rw [List.find?_cons_of_neg]
    · exact ih (fun x hx => hpre x (List.mem_cons_of_mem _ hx))
    · simp [dockerMatchesDb, hp.1, hp.2]

/-- Witness for the amended C2: the engineRef-matching object comes first, a
name-matching object follows, and the engineRef match is returned. -/
theorem findEngineMatch_engineRef_wins_when_first_witness :
    findEngineMatch
        ([] ++ ⟨"idb", "m", "img", "running", []⟩ ::
          [⟨"ida", "n", "img", "exited", []⟩])
        ⟨"c1", "n", some "idb", "running", none⟩ =
      some ⟨"idb", "m", "img", "running", []⟩ :=
  findEngineMatch_engineRef_wins_when_first [] [⟨"ida", "n", "img", "exited", []⟩]
    ⟨"idb", "m", "img", "running", []⟩ ⟨"c1", "n", some "idb", "running", none⟩
    rfl (by intro dcp h; cases h)

theorem findEngineMatch_cons (d : DockerContainer) (ds : List DockerContainer)
    (r : DbRecord) :
    findEngineMatch (d :: ds) r =
      if dockerMatchesDb d r then some d else findEngineMatch ds r := by
  unfold findEngineMatch
  cases h : dockerMatchesDb d r <;> simp [List.find?_cons, h]

theorem findEngineMatch_congr (dockers : List DockerContainer) (r r' : DbRecord)
    (hname : r'.name = r.name) (hdid : r'.docker_id = r.docker_id) :
    findEngineMatch dockers r' = findEngineMatch dockers r := by
  induction dockers with
  | nil => rfl
  | cons d ds ih =>
    have hpred : dockerMatchesDb d r' = dockerMatchesDb d r := by
      simp [dockerMatchesDb, hname, hdid]
    rw [findEngineMatch_cons, findEngineMatch_cons, hpred, ih]

theorem findEngineMatch_stable (dockers : List DockerContainer) (r r' : DbRecord)
    (dc : DockerContainer)
    (hids : (dockers.map (fun d => d.dockerId)).Nodup)
    (h : findEngineMatch dockers r = some dc)
    (hname : r'.name = r.name)
    (hdid : r'.docker_id = r.docker_id ∨ r'.docker_id = some dc.dockerId) :
    findEngineMatch dockers r' = some dc := by
  induction dockers with
  | nil => cases h
  | cons d ds ih =>
    rw [findEngineMatch_cons] at h
    rw [findEngineMatch_cons]
    by_cases hd : dockerMatchesDb d r = true
    · rw [if_pos hd] at h
      have hdc : dc = d := (Option.some.inj h).symm
      have hd' : dockerMatchesDb d r' = true := by
        simp only [dockerMatchesDb, decide_eq_true_eq] at hd ⊢
        rcases hd with hid | hnm
        · rcases hdid with h1 | h1
          · exact Or.inl (h1.trans hid)
          · exact Or.inl (h1.trans (by rw [hdc]))
        · exact Or.inr (hnm.trans hname.symm)
      rw [if_pos hd', h]
    · rw [if_neg hd] at h
      have hmem : dc ∈ ds := List.mem_of_find?_eq_some h
      have hd' : ¬ dockerMatchesDb d r' = true := by
        simp only [dockerMatchesDb, decide_eq_true_eq] at hd ⊢
        rintro (hid | hnm)
        · rcases hdid with h1 | h1
          · exact hd (Or.inl (h1.symm.trans hid))
          · have heq : dc.dockerId = d.dockerId := Option.some.inj (h1.symm.trans hid)
            have hnot : d.dockerId ∉ ds.map (fun x => x.dockerId) :=
              (List.nodup_cons.mp hids).1
            exact hnot (heq ▸ List.mem_map_of_mem _ hmem)
        · exact hd (Or.inr (hnm.trans hname))
      rw [if_neg hd']
      exact ih (List.nodup_cons.mp hids).2 h

theorem syncOne_matched (dockers : List DockerContainer) (r : DbRecord)
    (dc : DockerContainer) (h : findEngineMatch dockers r = some dc) :
    (syncOne dockers r).record.name = r.name ∧
    (syncOne dockers r).record.status = dc.status ∧
    (((syncOne dockers r).record.docker_id = r.docker_id ∧
        ¬ (optStrFalsy r.docker_id = true ∧ dc.dockerId ≠ "")) ∨
      ((syncOne dockers r).record.docker_id = some dc.dockerId ∧ dc.dockerId ≠ "" ∧
        optStrFalsy r.docker_id = true)) ∧
    (syncOne dockers r).updates = (if r.status ≠ dc.status then 1 else 0) +
      (if optStrFalsy r.docker_id = true ∧ dc.dockerId ≠ "" then 1 else 0) := by
  simp only [syncOne, h]
  split_ifs <;> simp_all

theorem syncOne_unmatched (dockers : List DockerContainer) (r : DbRecord)
    (h : findEngineMatch dockers r = none) :
    (syncOne dockers r).record.name = r.name ∧
    (syncOne dockers r).record.docker_id = r.docker_id ∧
    (syncOne dockers r).record.status = "stopped" ∧
    (syncOne dockers r).updates = (if r.status ≠ "stopped" then 1 else 0) := by
  simp only [syncOne, h]
  split_ifs <;> simp_all

theorem syncOne_idem (dockers : List DockerContainer) (r : DbRecord)
    (hids : (dockers.map (fun d => d.dockerId)).Nodup) :
    (syncOne dockers ((syncOne dockers r).record)).updates = 0 := by
  rcases hfind : findEngineMatch dockers r with - | dc
  · obtain ⟨hname, hdid, hstatus, -⟩ := syncOne_unmatched dockers r hfind
    have hfind' : findEngineMatch dockers ((syncOne dockers r).record) = none := by
      rw [findEngineMatch_congr dockers r _ hname hdid, hfind]
    obtain ⟨-, -, -, hupd⟩ := syncOne_unmatched dockers _ hfind'
    rw [hupd, hstatus]
    simp
  · obtain ⟨hname, hstatus, hdid, -⟩ := syncOne_matched dockers r dc hfind
    have hfind' : findEngineMatch dockers ((syncOne dockers r).record) = some dc := by
      refine findEngineMatch_stable dockers r _ dc hids hfind hname ?_
      rcases hdid with ⟨h1, -⟩ | ⟨h1, -, -⟩
      · exact Or.inl h1
      · exact Or.inr h1
    obtain ⟨-, -, -, hupd⟩ := syncOne_matched dockers _ dc hfind'
    rw [hupd, hstatus]
    rcases hdid with ⟨h1, h2⟩ | ⟨h1, h2, -⟩
    · rw [h1]
      simp only [ne_eq, not_true_eq_false, ite_false, if_neg h2]
    · rw [h1]
      simp [optStrFalsy, h2]

theorem syncLoop1_db (dockers : List DockerContainer) (db : List DbRecord) :
    (syncLoop1 dockers db).1 = db.map (fun r => (syncOne dockers r).record) := by
  induction db with
  | nil => rfl
  | cons r rs ih => simp [syncLoop1, ih]

theorem syncLoop1_updated (dockers : List DockerContainer) (db : List DbRecord) :
    (syncLoop1 dockers db).2.2.1 = (db.map (fun r => (syncOne dockers r).updates)).sum := by
  induction db with
  | nil => rfl
  | cons r rs ih => simp [syncLoop1, ih]

theorem importRecord_eq (newid : String) (dc : DockerContainer) :
    importRecord newid dc = ⟨newid, dc.name, some dc.dockerId, dc.status, none⟩ := rfl

theorem findEngineMatch_import (dockers : List DockerContainer) (dc : DockerContainer)
    (newid : String)
    (hids : (dockers.map (fun d => d.dockerId)).Nodup)
    (hnames : (dockers.map (fun d => d.name)).Nodup)
    (hdc : dc ∈ dockers) :
    findEngineMatch dockers (importRecord newid dc) = some dc := by
  induction dockers with
  | nil => cases hdc
  | cons d ds ih =>
    rw [findEngineMatch_cons]
    rcases List.mem_cons.mp hdc with rfl | hdc
    · rw [if_pos]
      simp [dockerMatchesDb, importRecord]
    · rw [if_neg]
      · exact ih (List.nodup_cons.mp hids).2 (List.nodup_cons.mp hnames).2 hdc
      · simp only [dockerMatchesDb, importRecord_eq, decide_eq_true_eq]
        rintro (hid | hnm)
        · have heq : dc.dockerId = d.dockerId := Option.some.inj hid
          have hmem : dc.dockerId ∈ ds.map (fun d => d.dockerId) :=
            List.mem_map_of_mem _ hdc
          rw [heq] at hmem
          exact (List.nodup_cons.mp hids).1 hmem
        · have hmem : dc.name ∈ ds.map (fun d => d.name) := List.mem_map_of_mem _ hdc
          rw [← hnm] at hmem
          exact (List.nodup_cons.mp hnames).1 hmem

theorem syncOne_import_updates (dockers : List DockerContainer) (dc : DockerContainer)
    (newid : String)
    (hids : (dockers.map (fun d => d.dockerId)).Nodup)
    (hnames : (dockers.map (fun d => d.name)).Nodup)
    (hdc : dc ∈ dockers) :
    (syncOne dockers (importRecord newid dc)).updates = 0 := by
  obtain ⟨-, -, -, hupd⟩ :=
    syncOne_matched dockers _ dc (findEngineMatch_import dockers dc newid hids hnames hdc)
  rw [hupd, importRecord_eq]
  simp only [ne_eq, not_true_eq_false, ite_false, optStrFalsy]
  split_ifs <;> simp_all

theorem syncLoop2_mem (db1 : List DbRecord) (newId : ℕ → String)
    (dockers : List DockerContainer) (k : ℕ) (r : DbRecord)
    (h : r ∈ (syncLoop2 db1 newId dockers k).1) :
    ∃ dc ∈ dockers, ∃ j, r = importRecord (newId j) dc := by
  induction dockers generalizing k with
  | nil => cases h
  | cons d ds ih =>
    simp only [syncLoop2] at h
    split at h
    · rcases List.mem_cons.mp h with rfl | h
      · exact ⟨d, List.mem_cons_self _ _, k, rfl⟩
      · obtain ⟨dc, hdc, j, hj⟩ := ih (k + 1) h
        exact ⟨dc, List.mem_cons_of_mem _ hdc, j, hj⟩
    · obtain ⟨dc, hdc, j, hj⟩ := ih k h
      exact ⟨dc, List.mem_cons_of_mem _ hdc, j, hj⟩

theorem syncLoop2_covers (db1 : List DbRecord) (newId : ℕ → String)
    (dockers : List DockerContainer) (k : ℕ) (dc : DockerContainer)
    (hdc : dc ∈ dockers)
    (hlab : lookupLabel dc.labels "nexus-crate-flow" = some "true") :
    (∃ r ∈ db1, dockerMatchesDb dc r = true) ∨
      (∃ r ∈ (syncLoop2 db1 newId dockers k).1,
        r.docker_id = some dc.dockerId ∧ r.name = dc.name) := by
  induction dockers generalizing k with
  | nil => cases hdc
  | cons d ds ih =>
    rcases List.mem_cons.mp hdc with rfl | hdc
    · rcases hf : (db1.find? (fun r => dockerMatchesDb dc r)) with - | r
      · refine Or.inr ?_
        simp only [syncLoop2, hf, Option.isNone_none, true_and, hlab, if_pos rfl]
        exact ⟨importRecord (newId k) dc, List.mem_cons_self _ _, by simp [importRecord_eq]⟩
      · exact Or.inl ⟨r, List.mem_of_find?_eq_some hf, List.find?_some hf⟩
    · simp only [syncLoop2]
      split
      · rcases ih (k + 1) hdc with h | ⟨r, hr, hprops⟩
        · exact Or.inl h
        · exact Or.inr ⟨r, List.mem_cons_of_mem _ hr, hprops⟩
      · exact ih k hdc

theorem syncContainers_db (newId : ℕ → String) (dockers : List DockerContainer)
    (db : List DbRecord) :
    (syncContainers newId dockers db).db =
      (syncLoop1 dockers db).1 ++
        (syncLoop2 (syncLoop1 dockers db).1 newId dockers 0).1 := rfl

theorem syncContainers_updated (newId : ℕ → String) (dockers : List DockerContainer)
    (db : List DbRecord) :
    (syncContainers newId dockers db).updated = (syncLoop1 dockers db).2.2.1 := rfl

theorem syncContainers_created (newId : ℕ → String) (dockers : List DockerContainer)
    (db : List DbRecord) :
    (syncContainers newId dockers db).created =
      (syncLoop2 (syncLoop1 dockers db).1 newId dockers 0).2.2 := rfl

theorem dockerMatchesDb_preserved (dockers : List DockerContainer)
    (dc : DockerContainer) (r : DbRecord) (hne : dc.dockerId ≠ "")
    (h : dockerMatchesDb dc r = true) :
    dockerMatchesDb dc ((syncOne dockers r).record) = true := by
  simp only [dockerMatchesDb, decide_eq_true_eq] at h ⊢
  rcases hf : findEngineMatch dockers r with - | dc'
  · obtain ⟨hname, hdid, -, -⟩ := syncOne_unmatched dockers r hf
    rcases h with hid | hnm
    · exact Or.inl (hdid.trans hid)
    · exact Or.inr (hnm.trans hname.symm)
  · obtain ⟨hname, -, hdid, -⟩ := syncOne_matched dockers r dc' hf
    rcases h with hid | hnm
    · rcases hdid with ⟨h1, -⟩ | ⟨-, -, h3⟩
      · exact Or.inl (h1.trans hid)
      · rw [hid] at h3
        simp [optStrFalsy] at h3
        exact absurd h3 hne
    · exact Or.inr (hnm.trans hname.symm)

theorem find?_isNone_false_of_exists (l : List DbRecord) (p : DbRecord → Bool)
    (h : ∃ r ∈ l, p r = true) : (l.find? p).isNone = false := by
  rcases hf : l.find? p with - | r
  · obtain ⟨r, hr, hp⟩ := h
    have := List.find?_eq_none.mp hf r hr
    exact absurd hp this
  · rfl

theorem syncLoop2_created_zero (db1 : List DbRecord) (newId : ℕ → String)
    (dockers : List DockerContainer) (k : ℕ)
    (hcover : ∀ dc ∈ dockers, lookupLabel dc.labels "nexus-crate-flow" = some "true" →
      ∃ r ∈ db1, dockerMatchesDb dc r = true) :
    (syncLoop2 db1 newId dockers k).2.2 = 0 := by
  induction dockers generalizing k with
  | nil => rfl
  | cons d ds ih =>
    simp only [syncLoop2]
    have hcover' : ∀ dc ∈ ds, lookupLabel dc.labels "nexus-crate-flow" = some "true" →
        ∃ r ∈ db1, dockerMatchesDb dc r = true :=
      fun dc hdc => hcover dc (List.mem_cons_of_mem _ hdc)
    split
    · next hcond =>
      have := find?_isNone_false_of_exists db1 (fun r => dockerMatchesDb d r)
        (hcover d (List.mem_cons_self _ _) hcond.2)
      rw [this] at hcond
      exact absurd hcond.1 Bool.false_ne_true
    · exact ih k hcover'

theorem syncContainers_covers (newId : ℕ → String) (dockers : List DockerContainer)
    (db : List DbRecord) (dc : DockerContainer) (hdc : dc ∈ dockers)
    (hlab : lookupLabel dc.labels "nexus-crate-flow" = some "true") :
    ∃ r ∈ (syncContainers newId dockers db).db, dockerMatchesDb dc r = true := by
  rw [syncContainers_db]
  rcases syncLoop2_covers (syncLoop1 dockers db).1 newId dockers 0 dc hdc hlab with
    ⟨r, hr, hp⟩ | ⟨r, hr, hid, -⟩
  · exact ⟨r, List.mem_append_left _ hr, hp⟩
  · refine ⟨r, List.mem_append_right _ hr, ?_⟩
    simp [dockerMatchesDb, hid]

/-- C1: sync is idempotent and correct.  With an engine list satisfying the
engine invariants (pairwise distinct non-empty ids, pairwise distinct names):
every registry record with a live engine match leaves the first Sync tick
carrying exactly the engine-reported status of its match, and a second Sync
tick run over the resulting registry (fetched in any order) with the same
engine list performs no status updates, no engineRef backfills and no record
creations: its updated and created counts are both 0. -/
theorem syncContainers_idempotent (newId newId2 : ℕ → String)
    (dockers : List DockerContainer) (db db2 : List DbRecord)
    (hids : (dockers.map (fun d => d.dockerId)).Nodup)
    (hnames : (dockers.map (fun d => d.name)).Nodup)
    (hne : ∀ dc ∈ dockers, dc.dockerId ≠ "")
    (hperm : db2.Perm (syncContainers newId dockers db).db) :
    (∀ r ∈ db, ∀ dc, findEngineMatch dockers r = some dc →
      (syncOne dockers r).record ∈ (syncContainers newId dockers db).db ∧
      (syncOne dockers r).record.status = dc.status) ∧
    (syncContainers newId2 dockers db2).updated = 0 ∧
    (syncContainers newId2 dockers db2).created = 0 := by
  have hout : ∀ r ∈ (syncContainers newId dockers db).db,
      (syncOne dockers r).updates = 0 := by
    intro r hr
    rw [syncContainers_db] at hr
    rcases List.mem_append.mp hr with hr | hr
    · rw [syncLoop1_db] at hr
      obtain ⟨r0, -, rfl⟩ := List.mem_map.mp hr
      exact syncOne_idem dockers r0 hids
    · obtain ⟨dc, hdc, j, rfl⟩ := syncLoop2_mem _ newId dockers 0 r hr
      exact syncOne_import_updates dockers dc (newId j) hids hnames hdc
  refine ⟨?_, ?_, ?_⟩
  · intro r hr dc hfind
    constructor
    · rw [syncContainers_db]
      refine List.mem_append_left _ ?_
      rw [syncLoop1_db]
      exact List.mem_map_of_mem _ hr
    · exact (syncOne_matched dockers r dc hfind).2.1
  · rw [syncContainers_updated, syncLoop1_updated]
    refine List.sum_eq_zero ?_
    intro x hx
    obtain ⟨r, hr, rfl⟩ := List.mem_map.mp hx
    exact hout r (hperm.subset hr)
  · rw [syncContainers_created]
    refine syncLoop2_created_zero _ newId2 dockers 0 ?_
    intro dc hdc hlab
    obtain ⟨r, hr, hp⟩ := syncContainers_covers newId dockers db dc hdc hlab
    have hr2 : r ∈ db2 := hperm.symm.subset hr
    refine ⟨(syncOne dockers r).record, ?_, ?_⟩
    · rw [syncLoop1_db]
      exact List.mem_map_of_mem _ hr2
    · exact dockerMatchesDb_preserved dockers dc r (hne dc hdc) hp

/-- Concrete engine list for the C1 witness: a labelled running container
and an unlabelled exited one, with distinct ids and names. -/
def syncWitnessDockers : List DockerContainer :=
  [⟨"d1", "web", "img", "running", [("nexus-crate-flow", "true")]⟩,
   ⟨"d2", "db", "img", "exited", []⟩]

/-- Concrete registry snapshot for the C1 witness: one record matching the
first engine object by name, with a missing engineRef. -/
def syncWitnessDb : List DbRecord := [⟨"c1", "web", none, "created", none⟩]

/-- Witness for C1 at the concrete engine list and registry: the record picks
up the engine status, and the second tick over the first tick output updates
and creates nothing. -/
theorem syncContainers_idempotent_witness :
    (∀ r ∈ syncWitnessDb, ∀ dc, findEngineMatch syncWitnessDockers r = some dc →
      (syncOne syncWitnessDockers r).record ∈
        (syncContainers (fun _ => "g0") syncWitnessDockers syncWitnessDb).db ∧
      (syncOne syncWitnessDockers r).record.status = dc.status) ∧
    (syncContainers (fun _ => "g1") syncWitnessDockers
      (syncContainers (fun _ => "g0") syncWitnessDockers syncWitnessDb).db).updated = 0 ∧
    (syncContainers (fun _ => "g1") syncWitnessDockers
      (syncContainers (fun _ => "g0") syncWitnessDockers syncWitnessDb).db).created = 0 :=
  syncContainers_idempotent (fun _ => "g0") (fun _ => "g1") syncWitnessDockers
    syncWitnessDb (syncContainers (fun _ => "g0") syncWitnessDockers syncWitnessDb).db
    (by decide) (by decide) (by decide) (List.Perm.refl _)

/-! ### Log lifecycle manager (logService.js: writeLog, readLogs, clearLogs)

One container is modelled: its per-category files (character lists keyed by
the category string) and the container_logs rows the service writes to the
durable store.  writeLog appends the bracket-timestamped line to the category
file and inserts the raw content into the store (directory creation only
materializes empty files, which the total file map already represents);
readLogs splits the file on newlines, drops whitespace-only lines, applies
the optional since filter, keeps the last tailN lines and parses each line
back with the timestamp regex of the source, substituting the current time
for a line the regex rejects. -/

/-- A container_logs row written through the log service (content kept at the
character level of the file layer). -/
structure StoreLogRow where
  container_id : String
  content : List Char
  log_type : String
deriving DecidableEq, Repr

/-- Per-container state of the log service: category files and store rows. -/
structure LogState where
  files : String → List Char
  dbLogs : List StoreLogRow

/-- A fresh container: every category file empty, no store rows. -/
def emptyLogState : LogState := ⟨fun _ => [], []⟩

/-- A parsed log entry as returned by readLogs (the constant source and type
fields of the JS object are omitted). -/
structure FileLogEntry where
  timestamp : List Char
  content : List Char
deriving DecidableEq, Repr

/-- JavaScript String.prototype.split on the newline character: split points
at every newline, empty segments kept. -/
def splitOnNl : List Char → List (List Char)
  | [] => [[]]
  | c :: cs =>
    if c = '\n' then [] :: splitOnNl cs
    else
      match splitOnNl cs with
      | [] => [[c]]
      | l :: ls => (c :: l) :: ls

/-- The whitespace set of JavaScript trim (ASCII part plus the common unicode
members). -/
def jsIsSpace (c : Char) : Bool :=
  c = ' ' || c = '\t' || c = '\n' || c = '\r' || c = '\x0B' || c = '\x0C' ||
    c = '\u00A0' || c = '\u2028' || c = '\u2029' || c = '\uFEFF'

/-- Truthiness of line.trim(): some character survives trimming. -/
def trimmedNonempty (l : List Char) : Bool :=
  l.any (fun c => !(jsIsSpace c))

/-- Characters the JavaScript regex dot matches (anything but a line
terminator). -/
def jsDotChar (c : Char) : Bool :=
  !(c = '\n' || c = '\r' || c = '\u2028' || c = '\u2029')

/-- The line layout writeLog appends for one entry. -/
def formatLogLine (ts content : List Char) : List Char :=
  '[' :: (ts ++ ']' :: ' ' :: (content ++ ['\n']))

/-- The regex of readLogs applied to one line: a leading bracketed non-empty
timestamp followed by one space and dot-matching content to the end of the
line; a line the regex rejects becomes an entry with the current time as
timestamp and the whole line as content. -/
def parseLogLine (now line : List Char) : FileLogEntry :=
  match line with
  | '[' :: rest =>
    match rest.takeWhile (fun c => c ≠ ']'), rest.dropWhile (fun c => c ≠ ']') with
    | [], _ => ⟨now, line⟩
    | ts, ']' :: ' ' :: content =>
      if content.all jsDotChar then ⟨ts, content⟩ else ⟨now, line⟩
    | _, _ => ⟨now, line⟩
  | _ => ⟨now, line⟩

/-- The since-filter regex of readLogs applied to one line (no trailing
anchor: only the bracketed timestamp is required). -/
def lineSinceTimestamp (line : List Char) : Option (List Char) :=
  match line with
  | '[' :: rest =>
    match rest.takeWhile (fun c => c ≠ ']'), rest.dropWhile (fun c => c ≠ ']') with
    | [], _ => none
    | ts, ']' :: _ => some ts
    | _, _ => none
  | _ => none

/-- Embedding of LogService.readLogs on one category file.  The since
argument abstracts the Date comparison of the source: when given, it decides
whether a parsed timestamp is at or after the cutoff, and a line without a
parseable timestamp is kept.  A tail limit of 0 keeps every line, mirroring
the positivity guard of the source. -/
def readLogsFile (now file : List Char) (tailN : ℕ)
    (since : Option (List Char → Bool)) : List FileLogEntry :=
  let lines0 := (splitOnNl file).filter trimmedNonempty
  let lines1 :=
    match since with
    | none => lines0
    | some keep =>
      lines0.filter (fun line =>
        match lineSinceTimestamp line with
        | some ts => keep ts
        | none => true)
  let lines2 := if 0 < tailN then lines1.drop (lines1.length - tailN) else lines1
  lines2.map (parseLogLine now)

/-- Embedding of LogService.writeLog for one container: append the formatted
line to the category file and, when the container row exists, insert the raw
content into the durable store. -/
def writeLog (containerExists : Bool) (st : LogState) (cid : String)
    (ts content : List Char) (logType : String) : LogState :=
  ⟨fun t => if t = logType then st.files logType ++ formatLogLine ts content
            else st.files t,
   if containerExists then st.dbLogs ++ [⟨cid, content, logType⟩] else st.dbLogs⟩

/-- Embedding of LogService.readLogs over the service state. -/
def readLogs (now : List Char) (st : LogState) (logType : String) (tailN : ℕ)
    (since : Option (List Char → Bool)) : List FileLogEntry :=
  readLogsFile now (st.files logType) tailN since

/-- Embedding of LogService.clearLogs: truncate the category file and, when
the container row exists, record the clearing action with Container.addLog
(a durable-store insert with log type info; nothing goes through writeLog, so
no file is appended to). -/
def clearLogs (containerExists : Bool) (st : LogState) (cid : String)
    (logType : String) : LogState :=
  let st1 : LogState := ⟨fun t => if t = logType then [] else st.files t, st.dbLogs⟩
  if containerExists then
    ⟨st1.files, st1.dbLogs ++ [⟨cid, (logType ++ " logs cleared").toList, "info"⟩]⟩
  else st1

/-- C8 counterexample: clearing the application log of an existing container
leaves the info log file empty — the audit entry reaches only the durable
store, because the source calls Container.addLog directly instead of going
through the append path, so no entry appears in the info log file. -/
theorem clearLogs_info_file_unchanged :
    (clearLogs true emptyLogState "c1" "application").files "info" = [] ∧
    (clearLogs true emptyLogState "c1" "application").dbLogs =
      [⟨"c1", "application logs cleared".toList, "info"⟩] := by
  constructor
  · rfl
  · decide

/-- C8 amended: clear truncates exactly the requested category file, leaves
every other file untouched, and records the clearing action as a log-type
info row in the durable store via the direct Container.addLog insert (when
the container row exists) — not through the append path, so the info log
file gains no entry. -/
theorem clearLogs_spec (e : Bool) (st : LogState) (cid cat : String) :
    (clearLogs e st cid cat).files cat = [] ∧
    (∀ t, t ≠ cat → (clearLogs e st cid cat).files t = st.files t) ∧
    (e = true → (clearLogs e st cid cat).dbLogs =
      st.dbLogs ++ [⟨cid, (cat ++ " logs cleared").toList, "info"⟩]) ∧
    (e = false → (clearLogs e st cid cat).dbLogs = st.dbLogs) := by
  refine ⟨?_, fun t ht => ?_, fun he => ?_, fun he => ?_⟩ <;>
    cases e <;> simp_all [clearLogs]

/-- Witness for the amended C8 at a concrete state: clearing application
truncates it, the startup file is untouched, and the audit row is inserted. -/
theorem clearLogs_spec_witness :
    (clearLogs true emptyLogState "c2" "application").files "application" = [] ∧
    (clearLogs true emptyLogState "c2" "application").files "startup" =
      emptyLogState.files "startup" ∧
    (clearLogs true emptyLogState "c2" "application").dbLogs =
      emptyLogState.dbLogs ++ [⟨"c2", ("application" ++ " logs cleared").toList, "info"⟩] :=
  ⟨(clearLogs_spec true emptyLogState "c2" "application").1,
   (clearLogs_spec true emptyLogState "c2" "application").2.1 "startup" (by decide),
   (clearLogs_spec true emptyLogState "c2" "application").2.2.1 rfl⟩

/-- A sequence of writeLog appends of (timestamp, content) pairs to one
category of one container. -/
def appendAll (e : Bool) (cid cat : String) (st : LogState) :
    List (List Char × List Char) → LogState
  | [] => st
  | p :: ps => appendAll e cid cat (writeLog e st cid p.1 p.2 cat) ps

/-- The part of a written line before its terminating newline. -/
def lineBody (ts content : List Char) : List Char :=
  '[' :: (ts ++ ']' :: ' ' :: content)

/-- Concatenation of the lines a sequence of appends adds to the file. -/
def linesConcat : List (List Char × List Char) → List Char
  | [] => []
  | p :: ps => formatLogLine p.1 p.2 ++ linesConcat ps

theorem formatLogLine_eq (ts content : List Char) :
    formatLogLine ts content = lineBody ts content ++ ['\n'] := by
  simp [formatLogLine, lineBody]

theorem writeLog_files_self (e : Bool) (st : LogState) (cid : String)
    (ts content : List Char) (cat : String) :
    (writeLog e st cid ts content cat).files cat =
      st.files cat ++ formatLogLine ts content := by
  simp [writeLog]

theorem appendAll_files (e : Bool) (cid cat : String) (st : LogState)
    (ps : List (List Char × List Char)) :
    (appendAll e cid cat st ps).files cat = st.files cat ++ linesConcat ps := by
  induction ps generalizing st with
  | nil => simp [appendAll, linesConcat]
  | cons p ps ih =>
    simp only [appendAll, linesConcat]
    rw [ih, writeLog_files_self, List.append_assoc]

theorem splitOnNl_append_line (l rest : List Char) (hl : '\n' ∉ l) :
    splitOnNl (l ++ '\n' :: rest) = l :: splitOnNl rest := by
  induction l with
  | nil => simp [splitOnNl]
  | cons c cs ih =>
    have hc : c ≠ '\n' := fun h => hl (h ▸ List.mem_cons_self _ _)
    have hcs : '\n' ∉ cs := fun h => hl (List.mem_cons_of_mem _ h)
    simp only [List.cons_append, splitOnNl, if_neg hc, List.append_eq]
    rw [ih hcs]

theorem nl_not_mem_lineBody (ts content : List Char) (hts : '\n' ∉ ts)
    (hc : '\n' ∉ content) : '\n' ∉ lineBody ts content := by
  simp only [lineBody, List.mem_cons, List.mem_append]
  rintro (h | h | h | h | h)
  · cases h
  · exact hts h
  · cases h
  · cases h
  · exact hc h

theorem splitOnNl_linesConcat (ps : List (List Char × List Char))
    (h : ∀ p ∈ ps, '\n' ∉ p.1 ∧ '\n' ∉ p.2) :
    splitOnNl (linesConcat ps) =
      ps.map (fun p => lineBody p.1 p.2) ++ [[]] := by
  induction ps with
  | nil => rfl
  | cons p ps ih =>
    have hp := h p (List.mem_cons_self _ _)
    have hbody : '\n' ∉ lineBody p.1 p.2 := nl_not_mem_lineBody _ _ hp.1 hp.2
    have hrest := ih (fun q hq => h q (List.mem_cons_of_mem _ hq))
    show splitOnNl (formatLogLine p.1 p.2 ++ linesConcat ps) = _
    rw [formatLogLine_eq, List.append_assoc, List.singleton_append,
      splitOnNl_append_line _ _ hbody, hrest]
    simp

theorem trimmedNonempty_bracket (xs : List Char) :
    trimmedNonempty ('[' :: xs) = true := by
  simp only [trimmedNonempty, List.any_cons, Bool.or_eq_true]
  exact Or.inl (by decide)

theorem filter_lineBody (ps : List (List Char × List Char)) :
    ((ps.map (fun (p : List Char × List Char) => lineBody p.1 p.2)) ++ [[]]).filter
        trimmedNonempty =
      ps.map (fun (p : List Char × List Char) => lineBody p.1 p.2) := by
  rw [List.filter_append]
  have h1 : ([([] : List Char)]).filter trimmedNonempty = [] := rfl
  rw [h1, List.append_nil]
  refine List.filter_eq_self.mpr ?_
  intro l hl
  obtain ⟨q, -, rfl⟩ := List.mem_map.mp hl
  exact trimmedNonempty_bracket _

theorem takeWhile_all_append (p : Char → Bool) (ts tl : List Char) (x : Char)
    (h : ∀ c ∈ ts, p c = true) (hx : p x = false) :
    (ts ++ x :: tl).takeWhile p = ts ∧ (ts ++ x :: tl).dropWhile p = x :: tl := by
  induction ts with
  | nil => simp [List.takeWhile_cons, List.dropWhile_cons, hx]
  | cons c cs ih =>
    have hc : p c = true := h c (List.mem_cons_self _ _)
    have ihr := ih (fun d hd => h d (List.mem_cons_of_mem _ hd))
    simp [List.takeWhile_cons, List.dropWhile_cons, hc, ihr.1, ihr.2]

theorem parse_lineBody (now ts content : List Char) (h1 : ts ≠ [])
    (h2 : ∀ c ∈ ts, c ≠ ']') (h3 : content.all jsDotChar = true) :
    parseLogLine now (lineBody ts content) = ⟨ts, content⟩ := by
  have hall : ∀ c ∈ ts, (fun c => decide (c ≠ ']')) c = true := by
    intro c hc
    simpa using h2 c hc
  have hx : (fun c => decide (c ≠ ']')) ']' = false := by decide
  obtain ⟨htake, hdrop⟩ :=
    takeWhile_all_append (fun c => decide (c ≠ ']')) ts (' ' :: content) ']' hall hx
  rcases ts with - | ⟨t, ts'⟩
  · exact absurd rfl h1
  · simp only [lineBody, parseLogLine, htake, hdrop, h3, if_true, ite_true]

theorem readLogs_appendAll_lines (e : Bool) (cid cat : String) (st : LogState)
    (now : List Char) (ps : List (List Char × List Char)) (n : ℕ)
    (hstart : st.files cat = [])
    (h : ∀ p ∈ ps, '\n' ∉ p.1 ∧ '\n' ∉ p.2) (hn : 0 < n) :
    readLogs now (appendAll e cid cat st ps) cat n none =
      ((ps.map (fun p => lineBody p.1 p.2)).drop (ps.length - n)).map
        (parseLogLine now) := by
  unfold readLogs readLogsFile
  rw [appendAll_files, hstart, List.nil_append, splitOnNl_linesConcat ps h,
    filter_lineBody]
  simp only [if_pos hn, List.length_map]

/-- C5 counterexample: the claim fails for an append whose content spans two
lines.  Appending the single entry with content a-newline-b to the startup
category and tailing with limit 1 does not return that entry: it returns one
entry whose content is just b (with the read-time clock as its timestamp),
because readLogs splits the file on newlines. -/
theorem readLogs_tail_multiline_entry :
    readLogs "tn".toList
        (appendAll true "c1" "startup" emptyLogState [("t1".toList, "a\nb".toList)])
        "startup" 1 none = [⟨"tn".toList, "b".toList⟩] ∧
    [FileLogEntry.mk "tn".toList "b".toList] ≠
      [FileLogEntry.mk "t1".toList "a\nb".toList] := by
  constructor
  · rfl
  · decide

/-- C5 amended: for every sequence of appends whose timestamps are non-empty
and free of newlines and closing brackets and whose contents contain only
dot-matching characters (no line terminators), tailing with a limit of at
least 1 returns exactly the last min(n, length) appended entries, in append
order, with timestamps and contents intact.  The original claim over all
contents fails for contents with embedded newlines. -/
theorem readLogs_tail_returns_last (e : Bool) (cid cat : String) (st : LogState)
    (now : List Char) (ps : List (List Char × List Char)) (n : ℕ)
    (hstart : st.files cat = [])
    (hts : ∀ p ∈ ps, p.1 ≠ [] ∧ '\n' ∉ p.1 ∧ ∀ c ∈ p.1, c ≠ ']')
    (hcontent : ∀ p ∈ ps, p.2.all jsDotChar = true) (hn : 0 < n) :
    readLogs now (appendAll e cid cat st ps) cat n none =
      (ps.map (fun p => FileLogEntry.mk p.1 p.2)).drop (ps.length - n) := by
  have hnl : ∀ p ∈ ps, '\n' ∉ p.1 ∧ '\n' ∉ p.2 := by
    intro p hp
    refine ⟨(hts p hp).2.1, fun hmem => ?_⟩
    have := List.all_eq_true.mp (hcontent p hp) _ hmem
    simp [jsDotChar] at this
  rw [readLogs_appendAll_lines e cid cat st now ps n hstart hnl hn]
  rw [← List.map_drop, ← List.map_drop, List.map_map]
  refine List.map_congr_left ?_
  intro p hp
  have hp' : p ∈ ps := List.drop_subset _ _ hp
  exact parse_lineBody now p.1 p.2 (hts p hp').1 (hts p hp').2.2 (hcontent p hp')

/-- Witness for the amended C5 at the scenario of the spec: appending boot ok
then listening to the startup category and tailing with limit 1 returns
exactly the listening entry. -/
theorem readLogs_tail_returns_last_witness :
    readLogs "tn".toList
        (appendAll true "c1" "startup" emptyLogState
          [("t1".toList, "boot ok".toList), ("t2".toList, "listening".toList)])
        "startup" 1 none =
      ([(("t1".toList, "boot ok".toList) : List Char × List Char),
        ("t2".toList, "listening".toList)].map
          (fun p => FileLogEntry.mk p.1 p.2)).drop
        ([(("t1".toList, "boot ok".toList) : List Char × List Char),
          ("t2".toList, "listening".toList)].length - 1) :=
  readLogs_tail_returns_last true "c1" "startup" emptyLogState "tn".toList
    [("t1".toList, "boot ok".toList), ("t2".toList, "listening".toList)] 1
    rfl (by decide) (by decide) (by decide)

/-! ### Real-time channel service (websocketService.js) -/

/-- A client transport endpoint: its identity and whether readyState is
OPEN. -/
structure Conn where
  connId : ℕ
  readyOpen : Bool
deriving DecidableEq, Repr

/-- A registered authenticated client (the clients map values). -/
structure WsClient where
  ws : Conn
  userId : ℕ
  role : String
deriving DecidableEq, Repr

/-- The containerStreams map: container id against its subscriber set
(insertion order kept). -/
abbrev StreamsMap := List (String × List Conn)

/-- The clients map: client id against the registered client. -/
abbrev ClientsMap := List (String × WsClient)

/-- Lookup of a subscriber set in the streams map. -/
def lookupStreams (streams : StreamsMap) (cid : String) : Option (List Conn) :=
  (streams.find? (fun p => p.1 = cid)).map (fun p => p.2)

/-- One pass of broadcastLogEntry over a subscriber set: an open connection
is sent the entry, a closed one is deleted from the set; returns the
surviving set and the connections sent to. -/
def broadcastToSubs : List Conn → List Conn × List Conn
  | [] => ([], [])
  | ws :: rest =>
    let out := broadcastToSubs rest
    if ws.readyOpen then (ws :: out.1, ws :: out.2) else (out.1, out.2)

/-- Embedding of WebSocketService.broadcastLogEntry: nothing happens for a
container without a subscriber set; otherwise the pass above runs and the
surviving set replaces the old one in the map.  Returns the new map and the
connections the entry was pushed to. -/
def broadcastLogEntry (streams : StreamsMap) (cid : String) :
    StreamsMap × List Conn :=
  match lookupStreams streams cid with
  | none => (streams, [])
  | some subs =>
    let pass := broadcastToSubs subs
    (streams.map (fun p => if p.1 = cid then (p.1, pass.1) else p), pass.2)

/-- Embedding of WebSocketService.broadcastContainerStatus: the status change
is sent to every client in the clients map whose transport is open,
regardless of any subscription; closed clients are skipped but not removed.
Returns the connections sent to. -/
def broadcastContainerStatus : ClientsMap → List Conn
  | [] => []
  | (_, cl) :: rest =>
    if cl.ws.readyOpen then cl.ws :: broadcastContainerStatus rest
    else broadcastContainerStatus rest

/-- C6 counterexample: a status change is pushed to an authenticated client
that is in no subscriber set.  With an empty streams map (the connection
subscribed to nothing) broadcastContainerStatus still sends to it, so the
push is not restricted to the subscriber set of the container. -/
theorem broadcastContainerStatus_not_subscribers :
    broadcastContainerStatus [("k1", ⟨⟨1, true⟩, 7, "user"⟩)] = [⟨1, true⟩] ∧
    lookupStreams [] "c9" = none := by
  constructor
  · rfl
  · rfl

theorem lookupStreams_cons (q : String × List Conn) (qs : StreamsMap) (cid : String) :
    lookupStreams (q :: qs) cid =
      if q.1 = cid then some q.2 else lookupStreams qs cid := by
  by_cases hq : q.1 = cid
  · rw [if_pos hq]
    unfold lookupStreams
    rw [List.find?_cons_of_pos]
    · rfl
    · exact decide_eq_true hq
  · rw [if_neg hq]
    unfold lookupStreams
    rw [List.find?_cons_of_neg]
    simpa using hq

theorem lookupStreams_update_self (streams : StreamsMap) (cid : String)
    (newsubs subs : List Conn) (h : lookupStreams streams cid = some subs) :
    lookupStreams
        (streams.map (fun p => if p.1 = cid then (p.1, newsubs) else p)) cid =
      some newsubs := by
  induction streams with
  | nil => cases h
  | cons q qs ih =>
    rw [lookupStreams_cons] at h
    by_cases hq : q.1 = cid
    · simp only [List.map_cons, lookupStreams_cons]
      simp [hq]
    · rw [if_neg hq] at h
      simp only [List.map_cons, lookupStreams_cons]
      simp [hq, ih h]

theorem lookupStreams_update_other (streams : StreamsMap) (cid cid2 : String)
    (newsubs : List Conn) (hne : cid2 ≠ cid) :
    lookupStreams
        (streams.map (fun p => if p.1 = cid then (p.1, newsubs) else p)) cid2 =
      lookupStreams streams cid2 := by
  induction streams with
  | nil => rfl
  | cons q qs ih =>
    simp only [List.map_cons, lookupStreams_cons]
    by_cases hq : q.1 = cid
    · simp [hq, ih, Ne.symm hne]
    · by_cases hq2 : q.1 = cid2
      · simp [hq, hq2, hne]
      · simp [hq, hq2, ih]

theorem broadcastToSubs_mem (subs : List Conn) (ws : Conn) :
    (ws ∈ (broadcastToSubs subs).2 ↔ ws ∈ subs ∧ ws.readyOpen = true) ∧
    (ws ∈ (broadcastToSubs subs).1 ↔ ws ∈ subs ∧ ws.readyOpen = true) := by
  induction subs with
  | nil => simp [broadcastToSubs]
  | cons w rest ih =>
    simp only [broadcastToSubs]
    by_cases hw : w.readyOpen = true
    · rw [if_pos hw]
      refine ⟨?_, ?_⟩ <;>
      · rw [List.mem_cons, List.mem_cons]
        first
        | rw [ih.1]
        | rw [ih.2]
        constructor
        · rintro (rfl | ⟨h, hop⟩)
          · exact ⟨Or.inl rfl, hw⟩
          · exact ⟨Or.inr h, hop⟩
        · rintro ⟨rfl | h, hop⟩
          · exact Or.inl rfl
          · exact Or.inr ⟨h, hop⟩
    · rw [if_neg hw]
      refine ⟨?_, ?_⟩ <;>
      · rw [List.mem_cons]
        first
        | rw [ih.1]
        | rw [ih.2]
        constructor
        · rintro ⟨h, hop⟩
          exact ⟨Or.inr h, hop⟩
        · rintro ⟨rfl | h, hop⟩
          · exact absurd hop hw
          · exact ⟨h, hop⟩

theorem broadcastContainerStatus_mem (clients : ClientsMap) (ws : Conn) :
    ws ∈ broadcastContainerStatus clients ↔
      (∃ k cl, (k, cl) ∈ clients ∧ cl.ws = ws) ∧ ws.readyOpen = true := by
  induction clients with
  | nil => simp [broadcastContainerStatus]
  | cons entry rest ih =>
    obtain ⟨k0, cl0⟩ := entry
    simp only [broadcastContainerStatus]
    by_cases hw : cl0.ws.readyOpen = true
    · rw [if_pos hw, List.mem_cons, ih]
      constructor
      · rintro (rfl | ⟨⟨k, cl, hmem, rfl⟩, hop⟩)
        · exact ⟨⟨k0, cl0, List.mem_cons_self _ _, rfl⟩, hw⟩
        · exact ⟨⟨k, cl, List.mem_cons_of_mem _ hmem, rfl⟩, hop⟩
      · rintro ⟨⟨k, cl, hmem, rfl⟩, hop⟩
        rcases List.mem_cons.mp hmem with heq | hmem
        · have h2 : cl = cl0 := congrArg Prod.snd heq
          rw [h2]
          exact Or.inl rfl
        · exact Or.inr ⟨⟨k, cl, hmem, rfl⟩, hop⟩
    · rw [if_neg hw, ih]
      constructor
      · rintro ⟨⟨k, cl, hmem, rfl⟩, hop⟩
        exact ⟨⟨k, cl, List.mem_cons_of_mem _ hmem, rfl⟩, hop⟩
      · rintro ⟨⟨k, cl, hmem, rfl⟩, hop⟩
        rcases List.mem_cons.mp hmem with heq | hmem
        · have h2 : cl = cl0 := congrArg Prod.snd heq
          rw [h2] at hop
          exact absurd hop hw
        · exact ⟨⟨k, cl, hmem, rfl⟩, hop⟩

/-- C6 amended: a new log entry is pushed to exactly the open connections of
that container's subscriber set (no set, no pushes), a closed connection
found during the log broadcast is removed from the set rather than treated
as an error, and other containers' sets are untouched; a status change, in
contrast, is pushed to every authenticated client with an open transport
regardless of subscription, with closed clients skipped but not removed. -/
theorem broadcast_delivery_spec (streams : StreamsMap) (cid : String)
    (subs : List Conn) (clients : ClientsMap) (ws : Conn)
    (hsub : lookupStreams streams cid = some subs) :
    (ws ∈ (broadcastLogEntry streams cid).2 ↔ ws ∈ subs ∧ ws.readyOpen = true) ∧
    (lookupStreams (broadcastLogEntry streams cid).1 cid =
      some (subs.filter (fun w => w.readyOpen))) ∧
    ((subs.filter (fun w => w.readyOpen)) = (broadcastToSubs subs).1) ∧
    (∀ cid2, cid2 ≠ cid →
      lookupStreams (broadcastLogEntry streams cid).1 cid2 =
        lookupStreams streams cid2) ∧
    (ws ∈ broadcastContainerStatus clients ↔
      (∃ k cl, (k, cl) ∈ clients ∧ cl.ws = ws) ∧ ws.readyOpen = true) := by
  have hfilter : ∀ l : List Conn, l.filter (fun w => w.readyOpen) =
      (broadcastToSubs l).1 := by
    intro l
    induction l with
    | nil => rfl
    | cons w rest ihl =>
      simp only [broadcastToSubs, List.filter_cons]
      by_cases hw : w.readyOpen = true
      · rw [if_pos hw]
        simp only [hw, ite_true, ihl]
      · rw [if_neg hw]
        simp only [Bool.not_eq_true] at hw
        simp only [hw, ite_false, Bool.false_eq_true]
        exact ihl
  refine ⟨?_, ?_, hfilter subs, ?_, broadcastContainerStatus_mem clients ws⟩
  · simp only [broadcastLogEntry, hsub]
    exact (broadcastToSubs_mem subs ws).1
  · simp only [broadcastLogEntry, hsub]
    rw [hfilter subs]
    exact lookupStreams_update_self streams cid _ subs hsub
  · intro cid2 hne
    simp only [broadcastLogEntry, hsub]
    exact lookupStreams_update_other streams cid cid2 _ hne

/-- Witness for the amended C6 at a concrete state: one subscriber set with
an open and a closed connection, one unsubscribed authenticated client. -/
theorem broadcast_delivery_spec_witness :
    ((⟨1, true⟩ : Conn) ∈
        (broadcastLogEntry [("c1", [⟨1, true⟩, ⟨2, false⟩])] "c1").2 ↔
      (⟨1, true⟩ : Conn) ∈ [(⟨1, true⟩ : Conn), ⟨2, false⟩] ∧
        (⟨1, true⟩ : Conn).readyOpen = true) ∧
    (lookupStreams (broadcastLogEntry [("c1", [⟨1, true⟩, ⟨2, false⟩])] "c1").1
        "c1" =
      some (([(⟨1, true⟩ : Conn), ⟨2, false⟩]).filter (fun w => w.readyOpen))) ∧
    ((([(⟨1, true⟩ : Conn), ⟨2, false⟩]).filter (fun w => w.readyOpen)) =
      (broadcastToSubs [(⟨1, true⟩ : Conn), ⟨2, false⟩]).1) ∧
    (∀ cid2, cid2 ≠ "c1" →
      lookupStreams (broadcastLogEntry [("c1", [⟨1, true⟩, ⟨2, false⟩])] "c1").1
          cid2 =
        lookupStreams [("c1", [⟨1, true⟩, ⟨2, false⟩])] cid2) ∧
    ((⟨1, true⟩ : Conn) ∈ broadcastContainerStatus [("k1", ⟨⟨3, true⟩, 7, "user"⟩)] ↔
      (∃ k cl, (k, cl) ∈ [("k1", (⟨⟨3, true⟩, 7, "user"⟩ : WsClient))] ∧
        cl.ws = ⟨1, true⟩) ∧ (⟨1, true⟩ : Conn).readyOpen = true) :=
  broadcast_delivery_spec [("c1", [⟨1, true⟩, ⟨2, false⟩])] "c1"
    [⟨1, true⟩, ⟨2, false⟩] [("k1", ⟨⟨3, true⟩, 7, "user"⟩)] ⟨1, true⟩ rfl

/-- The handlers the message switch of setupConnection can delegate to. -/
inductive WsHandler
  | authentication
  | logSubscription
  | logUnsubscription
  | commandExecution
  | containerStatus
deriving DecidableEq, Repr

/-- An event the message switch itself sends back on the connection (only
error events arise there; everything else is sent by the handlers). -/
inductive WsGateEvent
  | errorEvent (message : String)
deriving DecidableEq, Repr

/-- Outcome of the message switch for one incoming message: the error events
sent directly to the connection, the handler invoked if any, and whether the
switch closes the connection (no branch of the source ever calls close, so
this is false on every path; it is part of the result so that the property
can be stated). -/
structure DispatchResult where
  events : List WsGateEvent
  delegated : Option WsHandler
  closesConnection : Bool
deriving DecidableEq, Repr

/-- Embedding of the message-type switch of setupConnection: authenticate is
always delegated; subscribe_logs, execute_command and get_container_status
are delegated only when the connection has authenticated and otherwise
answer with an Authentication required error event; unsubscribe_logs is
delegated only when authenticated and otherwise does nothing at all; an
unknown type answers with an Unknown message type error event. -/
def dispatchMessage (authenticated : Bool) (msgType : String) : DispatchResult :=
  if msgType = "authenticate" then
    ⟨[], some WsHandler.authentication, false⟩
  else if msgType = "subscribe_logs" then
    if authenticated then ⟨[], some WsHandler.logSubscription, false⟩
    else ⟨[WsGateEvent.errorEvent "Authentication required"], none, false⟩
  else if msgType = "unsubscribe_logs" then
    if authenticated then ⟨[], some WsHandler.logUnsubscription, false⟩
    else ⟨[], none, false⟩
  else if msgType = "execute_command" then
    if authenticated then ⟨[], some WsHandler.commandExecution, false⟩
    else ⟨[WsGateEvent.errorEvent "Authentication required"], none, false⟩
  else if msgType = "get_container_status" then
    if authenticated then ⟨[], some WsHandler.containerStatus, false⟩
    else ⟨[WsGateEvent.errorEvent "Authentication required"], none, false⟩
  else
    ⟨[WsGateEvent.errorEvent "Unknown message type"], none, false⟩

/-- C7 counterexample: an unauthenticated unsubscribe_logs message yields no
error event (the switch has no else branch there, so the message is silently
ignored), while an unauthenticated subscribe_logs does yield one — the claim
that all four gated messages yield an error event is false. -/
theorem dispatchMessage_unsubscribe_silent :
    (dispatchMessage false "unsubscribe_logs").events = [] ∧
    (dispatchMessage false "subscribe_logs").events =
      [WsGateEvent.errorEvent "Authentication required"] := by
  constructor
  · rfl
  · rfl

/-- C7 amended: on an unauthenticated connection, subscribe_logs,
execute_command and get_container_status each yield exactly one
Authentication required error event and are not delegated, unsubscribe_logs
is silently ignored (no event, no delegation), and none of the four closes
the connection, so the client can still authenticate afterwards. -/
theorem dispatchMessage_unauthenticated_gate :
    (dispatchMessage false "subscribe_logs").events =
      [WsGateEvent.errorEvent "Authentication required"] ∧
    (dispatchMessage false "execute_command").events =
      [WsGateEvent.errorEvent "Authentication required"] ∧
    (dispatchMessage false "get_container_status").events =
      [WsGateEvent.errorEvent "Authentication required"] ∧
    (dispatchMessage false "unsubscribe_logs").events = [] ∧
    (dispatchMessage false "subscribe_logs").delegated = none ∧
    (dispatchMessage false "execute_command").delegated = none ∧
    (dispatchMessage false "get_container_status").delegated = none ∧
    (dispatchMessage false "unsubscribe_logs").delegated = none ∧
    (dispatchMessage false "subscribe_logs").closesConnection = false ∧
    (dispatchMessage false "execute_command").closesConnection = false ∧
    (dispatchMessage false "get_container_status").closesConnection = false ∧
    (dispatchMessage false "unsubscribe_logs").closesConnection = false := by
  refine ⟨rfl, rfl, rfl, rfl, rfl, rfl, rfl, rfl, rfl, rfl, rfl, rfl⟩

end NexusCrateFlow
